import Mathlib

/-!
Verification of the dataviz Dataset Analysis Engine frontend.

Shallow embedding of the TypeScript sources:
* `rebinHistogram` and `clampRange` from `src/frontend/src/components/FeatureDetails.tsx`
* `aggregateBins` from the earlier FeatureDetails revision (`src/unnamed/part_003`)
* `createSeries`, `mockCorrelations`-style record building and `changeSampleSize`
  from the mock data service (`src/unnamed/part_001`, `src/unnamed/part_000`) and
  `fetchOverview` from `src/frontend/src/services/dataService.ts`
* a spec-modelled Time-Lens engine (the backend implementation is not in the
  repository snapshot; only `src/backend/README.md` documents it)

Conventions: JS `number` values carried by histogram bins and statistics are
modelled as `ℚ`; array indices and lengths as `ℕ` (JS loop counters here are
always non-negative); `Math.round`/`Math.floor` are modelled exactly as
`⌊x + 1/2⌋`/`⌊x⌋` over `ℚ`.  A JS property access on `undefined`
(e.g. `slice[0].label` on an empty slice) is modelled as `Option` failure.
`Math.random()` is modelled as an explicit stream `ℕ → ℚ` of draws, consumed
in call order.
-/

/-- `HistogramBin` from `src/frontend/src/types/index.ts`: `(label, value)`. -/
structure HistogramBin where
  label : String
  value : ℚ
deriving DecidableEq, Repr

/-- `AggregatedBin` from `FeatureDetails.tsx`: a `HistogramBin` plus the
`[startIndex, endIndex]` provenance range in original coordinates. -/
structure AggregatedBin where
  label : String
  value : ℚ
  startIndex : ℕ
  endIndex : ℕ
deriving DecidableEq, Repr

/-- `slice.reduce((acc, item) => acc + item.value, 0)`. -/
def sumValues (l : List HistogramBin) : ℚ :=
  l.foldl (fun acc item => acc + item.value) 0

/-- Sum of the `value` fields of aggregated output bins. -/
def sumValuesAgg (l : List AggregatedBin) : ℚ :=
  l.foldl (fun acc item => acc + item.value) 0

/-- JS `Math.round` on a non-negative finite number: `⌊x + 1/2⌋` (half away
from zero towards `+∞`), returned as a rational. -/
def jsRoundQ (q : ℚ) : ℚ := ((⌊q + 1/2⌋ : ℤ) : ℚ)

/-- JS `Math.round (a / b)` for naturals with `b > 0`:
`⌊a/b + 1/2⌋ = (2a + b) / (2b)` in natural division. -/
def jsRoundDiv (a b : ℕ) : ℕ := (2 * a + b) / (2 * b)

/-- `clampRange` from `FeatureDetails.tsx` lines 22–29.  `length` is the
histogram length; `range` is the requested view (`null` modelled as `none`).
JS falsy test `!length` is `length = 0`; the requested endpoints may be any
integers. -/
def clampRange (length : ℕ) (range : Option (ℤ × ℤ)) : ℤ × ℤ :=
  match range with
  | none => (0, max ((length : ℤ) - 1) 0)
  | some (s, e) =>
    if length = 0 then (0, max ((length : ℤ) - 1) 0)
    else
      let start := max 0 (min s ((length : ℤ) - 1))
      let stop := max start (min e ((length : ℤ) - 1))
      (start, stop)

/-- `changeSampleSize` from the mock services (`part_000` lines 118–126,
`part_001` lines 155–163): `Math.max(500, mockDataset.sampleSize + delta)`. -/
def changeSampleSize (sampleSize delta : ℤ) : ℤ := max 500 (sampleSize + delta)

/-- `mockDataset.rows` from `part_001` line 63. -/
def mockRows : ℤ := 123456

/-- `mockDataset.sampleSize` from `part_001` line 65. -/
def mockSampleSize : ℤ := 5000

/-- `chartType ∈ {scatter, distribution}` from `types/index.ts`. -/
inductive ChartType where
  | scatter
  | distribution
deriving DecidableEq, Repr

/-- `CompareConfig` from `types/index.ts`: `x`, `y`, `color` are
`string | null`. -/
structure CompareConfig where
  x : Option String
  y : Option String
  color : Option String
  chartType : ChartType
deriving DecidableEq, Repr

/-- JS truthiness of a `string | null` value: `null` and `""` are falsy. -/
def jsTruthy : Option String → Bool
  | none => false
  | some s => s ≠ ""

/-- `createSeries` from `src/unnamed/part_001` lines 78–98 (same structure as
`part_000` lines 60–80, which uses lengths 400/40 instead of 350/50).
`rand` is the stream of `Math.random()` draws: the scatter branch consumes two
draws per point, the distribution branch one per point. -/
def createSeries (config : CompareConfig) (rand : ℕ → ℚ) :
    List (String × List (ℚ × ℚ)) :=
  if config.chartType = ChartType.scatter ∧ jsTruthy config.x ∧ jsTruthy config.y then
    [(config.x.getD "" ++ " vs " ++ config.y.getD "",
      (List.range 350).map (fun i => (rand (2 * i) * 10, rand (2 * i + 1) * 10)))]
  else if config.chartType = ChartType.distribution ∧ jsTruthy config.x then
    [(config.x.getD "",
      (List.range 50).map (fun (i : ℕ) => ((i : ℚ), rand i * 120)))]
  else
    []

/-- The three feature type classes from `types/index.ts`. -/
inductive FeatureType where
  | numeric
  | categorical
  | datetime
deriving DecidableEq, Repr

/-- The fields of `FeatureSummary` consumed when building correlation
records: `name`, `type`, and the optional association statistics. -/
structure FeatureStat where
  name : String
  ftype : FeatureType
  pearson : Option ℚ
  spearman : Option ℚ
  distance : Option ℚ
deriving DecidableEq, Repr

/-- `CorrelationRecord` from `types/index.ts`. -/
structure CorrelationRecord where
  feature : String
  pearson : ℚ
  spearman : ℚ
  distance : ℚ
deriving DecidableEq, Repr

/-- The correlation-record construction shared by `part_001` lines 71–76 and
`dataService.ts` `fetchOverview` lines 45–50:
`features.map(f => ({feature: f.name, pearson: f.pearson ?? 0, ...}))`. -/
def mkCorrelations (features : List FeatureStat) : List CorrelationRecord :=
  features.map (fun f =>
    { feature := f.name
      pearson := f.pearson.getD 0
      spearman := f.spearman.getD 0
      distance := f.distance.getD 0 })

/- ### Theorems: sample size (C5) -/

/-- C5 counterexample: the sample-size change is NOT clamped to the dataset's
row count.  At the mock dataset's state (`sampleSize = 5000`,
`rows = 123456`), a delta of `200000` yields `205000`, which exceeds `rows`
instead of being lowered to it. -/
theorem changeSampleSize_no_upper_clamp :
    changeSampleSize mockSampleSize 200000 = 205000 ∧
      mockRows < changeSampleSize mockSampleSize 200000 := by
  constructor <;> decide

/-- C5 (amended): `changeSampleSize` clamps only from below: the result is
always at least the fixed floor 500, a requested value below the floor is
raised to the floor, and any requested value at or above the floor — however
large — is returned unchanged (no upper clamp to the row count). -/
theorem changeSampleSize_clamps_below (sampleSize delta : ℤ) :
    500 ≤ changeSampleSize sampleSize delta ∧
      (sampleSize + delta ≤ 500 → changeSampleSize sampleSize delta = 500) ∧
      (500 ≤ sampleSize + delta →
        changeSampleSize sampleSize delta = sampleSize + delta) := by
  refine ⟨le_max_left _ _, fun h => ?_, fun h => ?_⟩
  · simp [changeSampleSize, max_eq_left h]
  · simp [changeSampleSize, max_eq_right h]

/-- C5 witness: at `sampleSize = 5000, delta = -200000` the request falls
below the floor and is raised to 500. -/
theorem changeSampleSize_clamps_below_witness :
    changeSampleSize 5000 (-200000) = 500 :=
  (changeSampleSize_clamps_below 5000 (-200000)).2.1 (by decide)

/- ### Theorems: compare series builder (C7, C9) -/

/-- C7: `createSeries` returns the empty series list whenever the required
fields are unset — `x` unset (null or empty), or `y` unset while the chart
type is scatter — and raises no error (it is total and yields `[]`). -/
theorem createSeries_empty_when_unset (config : CompareConfig) (rand : ℕ → ℚ)
    (h : jsTruthy config.x = false ∨
      (config.chartType = ChartType.scatter ∧ jsTruthy config.y = false)) :
    createSeries config rand = [] := by
  rcases h with hx | ⟨hscatter, hy⟩
  · unfold createSeries
    rw [if_neg, if_neg]
    · simp [hx]
    · simp [hx]
  · unfold createSeries
    rw [if_neg, if_neg]
    · simp [hscatter]
    · simp [hy]

/-- C7 witness: a scatter config with `x` chosen but `y` still null yields the
empty series list. -/
theorem createSeries_empty_when_unset_witness :
    createSeries ⟨some "f1", none, none, ChartType.scatter⟩ (fun _ => 0) = [] :=
  createSeries_empty_when_unset _ _ (Or.inr ⟨rfl, by decide⟩)

/-- C9 counterexample: the compare-series builder is NOT a pure function of
the config alone — it draws fresh `Math.random()` values, so two calls with
the identical config but different observed draws return different series. -/
theorem createSeries_not_deterministic_in_config :
    createSeries ⟨some "a", some "b", none, ChartType.scatter⟩ (fun _ => 0) ≠
      createSeries ⟨some "a", some "b", none, ChartType.scatter⟩ (fun _ => 1) := by
  intro h
  have h2 : ((List.range 350).map fun _ => ((0 : ℚ) * 10, (0 : ℚ) * 10)) =
      (List.range 350).map fun _ => ((1 : ℚ) * 10, (1 : ℚ) * 10) :=
    congrArg (fun l => (l.headD ("", [])).2) h
  have h4 : (((0 : ℚ) * 10, (0 : ℚ) * 10)) = (((1 : ℚ) * 10, (1 : ℚ) * 10)) :=
    congrArg (fun l => l.headD (0, 0)) h2
  have h5 := congrArg Prod.fst h4
  norm_num at h5

/-- C9 (amended): the builder is deterministic only as a function of the pair
(config, random draws): two calls observing the same random stream return
identical series. -/
theorem createSeries_deterministic_in_config_and_draws
    (config : CompareConfig) (r1 r2 : ℕ → ℚ) (h : ∀ i, r1 i = r2 i) :
    createSeries config r1 = createSeries config r2 := by
  have : r1 = r2 := funext h
  rw [this]

/-- C9 witness: with the constant-zero stream on both sides the two calls
agree. -/
theorem createSeries_deterministic_witness :
    createSeries ⟨some "a", some "b", none, ChartType.scatter⟩ (fun _ => 0) =
      createSeries ⟨some "a", some "b", none, ChartType.scatter⟩ (fun _ => 0) :=
  createSeries_deterministic_in_config_and_draws _ _ _ (fun _ => rfl)

/- ### Theorems: correlation records (C6) -/

/-- C6 counterexample: a categorical feature with no association statistics IS
emitted as a `CorrelationRecord` with all values coerced to 0 — the
construction does not exclude non-numeric features. -/
theorem mkCorrelations_emits_non_numeric :
    mkCorrelations [⟨"cat_feature", FeatureType.categorical, none, none, none⟩] =
      [⟨"cat_feature", 0, 0, 0⟩] ∧
      mkCorrelations [⟨"cat_feature", FeatureType.categorical, none, none, none⟩] ≠ [] := by
  constructor <;> decide

/-- C6 (amended): the in-repo correlation-record construction emits exactly
one record per feature regardless of its type, with each missing
pearson/spearman/distance value defaulted to 0; in particular every
non-numeric feature appears as a record. -/
theorem mkCorrelations_one_per_feature (features : List FeatureStat) :
    (mkCorrelations features).length = features.length ∧
      ∀ f ∈ features,
        (⟨f.name, f.pearson.getD 0, f.spearman.getD 0, f.distance.getD 0⟩ :
          CorrelationRecord) ∈ mkCorrelations features := by
  refine ⟨List.length_map _ _, fun f hf => ?_⟩
  exact List.mem_map.mpr ⟨f, hf, rfl⟩

/-- C6 witness: for a two-feature list containing a datetime feature, the
datetime feature's zero-filled record is present and the lengths match. -/
theorem mkCorrelations_one_per_feature_witness :
    (mkCorrelations [⟨"f1", FeatureType.numeric, some (1/2), some (1/3), some (1/4)⟩,
        ⟨"d1", FeatureType.datetime, none, none, none⟩]).length = 2 ∧
      (⟨"d1", 0, 0, 0⟩ : CorrelationRecord) ∈
        mkCorrelations [⟨"f1", FeatureType.numeric, some (1/2), some (1/3), some (1/4)⟩,
          ⟨"d1", FeatureType.datetime, none, none, none⟩] := by
  have h := mkCorrelations_one_per_feature
    [⟨"f1", FeatureType.numeric, some (1/2), some (1/3), some (1/4)⟩,
      ⟨"d1", FeatureType.datetime, none, none, none⟩]
  exact ⟨h.1, h.2 ⟨"d1", FeatureType.datetime, none, none, none⟩ (by simp)⟩

/- ### Adaptive histogram rebinner: definitions -/

/-- `endIdxExclusive` of bucket `bucket` before the bump, from
`rebinHistogram` line 39: `bucket === target - 1 ? bins.length
: Math.round(((bucket + 1) * bins.length) / target)`. -/
def bucketEnd (len target bucket : ℕ) : ℕ :=
  if bucket = target - 1 then len else jsRoundDiv ((bucket + 1) * len) target

/-- One iteration of the `rebinHistogram` loop body (lines 38–56): returns the
pushed bin and the new `previousEnd`, or `none` when the slice is empty and JS
would read `.label` of `undefined`. -/
def rebinStep (bins : List HistogramBin) (offset target bucket prevEnd : ℕ) :
    Option (AggregatedBin × ℕ) :=
  let startIdx := prevEnd
  let e0 := bucketEnd bins.length target bucket
  let endIdx := if e0 ≤ startIdx then startIdx + 1 else e0
  let slice := (bins.drop startIdx).take (endIdx - startIdx)
  match slice.head?, slice.getLast? with
  | some first, some last =>
    some ({ label := if first.label = last.label then first.label
              else first.label ++ "–" ++ last.label
            value := jsRoundQ (sumValues slice)
            startIndex := offset + startIdx
            endIndex := offset + endIdx - 1 }, endIdx)
  | _, _ => none

/-- The `for (let bucket = 0; bucket < target; ...)` loop of `rebinHistogram`,
fuelled by the remaining iteration count (`fuel = target - bucket`). -/
def rebinGo (bins : List HistogramBin) (offset target : ℕ) :
    ℕ → ℕ → ℕ → Option (List AggregatedBin)
  | 0, _, _ => some []
  | fuel + 1, bucket, prevEnd =>
    match rebinStep bins offset target bucket prevEnd with
    | some (bin, endIdx) => (rebinGo bins offset target fuel (bucket + 1) endIdx).map (bin :: ·)
    | none => none

/-- `rebinHistogram` from `FeatureDetails.tsx` lines 31–60.  `binsCount` is a
natural: a JS call with a negative count runs zero loop iterations, exactly
like count 0 here. -/
def rebinHistogram (bins : List HistogramBin) (binsCount offset : ℕ) :
    Option (List AggregatedBin) :=
  if bins.length = 0 then some []
  else
    rebinGo bins offset (min binsCount (max bins.length 1))
      (min binsCount (max bins.length 1)) 0 0

/-- The rounded bucket boundary `Math.round((b * bins.length) / target)`;
`previousEnd` in the loop always equals `rebinB` of the current bucket. -/
def rebinB (len target b : ℕ) : ℕ := jsRoundDiv (b * len) target

/-- The group of input bins assigned to output bucket `b` by `rebinHistogram`. -/
def rebinSlice (bins : List HistogramBin) (target b : ℕ) : List HistogramBin :=
  (bins.drop (rebinB bins.length target b)).take
    (rebinB bins.length target (b + 1) - rebinB bins.length target b)

/-- The label `rebinHistogram` gives a group (line 49). -/
def rebinLabel (slice : List HistogramBin) : String :=
  match slice.head?, slice.getLast? with
  | some first, some last =>
    if first.label = last.label then first.label
    else first.label ++ "–" ++ last.label
  | _, _ => ""

/-- The output bin of bucket `b` as determined by the boundary function. -/
def rebinRef (bins : List HistogramBin) (offset target b : ℕ) : AggregatedBin :=
  { label := rebinLabel (rebinSlice bins target b)
    value := jsRoundQ (sumValues (rebinSlice bins target b))
    startIndex := offset + rebinB bins.length target b
    endIndex := offset + rebinB bins.length target (b + 1) - 1 }

/- ### Earlier revision: aggregateBins (src/unnamed/part_003 lines 13–29) -/

/-- One iteration of the `aggregateBins` loop (lines 19–26): `start` and `end`
are `Math.floor(bucket * chunkSize)` and `Math.min(len, Math.floor((bucket+1) *
chunkSize))` with `chunkSize = len / targetSize`; over exact arithmetic
`⌊b * (len/t)⌋ = b * len / t` in natural division. -/
def aggStep (bins : List HistogramBin) (targetSize bucket : ℕ) :
    Option HistogramBin :=
  let start := bucket * bins.length / targetSize
  let stop := min bins.length ((bucket + 1) * bins.length / targetSize)
  let slice := (bins.drop start).take (max (start + 1) stop - start)
  match slice.head?, slice.getLast? with
  | some first, some last =>
    some { label := if slice.length = 1 then first.label
             else first.label ++ "–" ++ last.label
           value := jsRoundQ (sumValues slice) }
  | _, _ => none

/-- The `aggregateBins` loop, fuelled by remaining iterations. -/
def aggGo (bins : List HistogramBin) (targetSize : ℕ) :
    ℕ → ℕ → Option (List HistogramBin)
  | 0, _ => some []
  | fuel + 1, bucket =>
    match aggStep bins targetSize bucket with
    | some bin => (aggGo bins targetSize fuel (bucket + 1)).map (bin :: ·)
    | none => none

/-- `aggregateBins` from `src/unnamed/part_003` lines 13–29. -/
def aggregateBins (bins : List HistogramBin) (targetSize : ℕ) :
    Option (List HistogramBin) :=
  if bins.length = 0 then some []
  else if bins.length ≤ targetSize then some bins
  else aggGo bins targetSize targetSize 0

/-- The floor bucket boundary of `aggregateBins`. -/
def aggB (len target b : ℕ) : ℕ := b * len / target

example : rebinHistogram [⟨"a", 1⟩, ⟨"b", 2⟩, ⟨"c", 3⟩] 2 0 =
    some [⟨"a–b", 3, 0, 1⟩, ⟨"c", 3, 2, 2⟩] := by
  norm_num [rebinHistogram, rebinGo, rebinStep, bucketEnd, jsRoundDiv, jsRoundQ, sumValues]
  decide

example : rebinHistogram [] 5 7 = some [] := by decide

example : rebinHistogram [⟨"a", 1⟩, ⟨"b", 2⟩] 5 3 =
    some [⟨"a", 1, 3, 3⟩, ⟨"b", 2, 4, 4⟩] := by
  norm_num [rebinHistogram, rebinGo, rebinStep, bucketEnd, jsRoundDiv, jsRoundQ, sumValues]

example : aggregateBins [⟨"a", 1⟩, ⟨"b", 2⟩, ⟨"c", 3⟩] 2 =
    some [⟨"a", 1⟩, ⟨"b–c", 5⟩] := by
  norm_num [aggregateBins, aggGo, aggStep, jsRoundQ, sumValues]
  decide

example : aggregateBins [⟨"a", 1⟩, ⟨"b", 2⟩] 5 = some [⟨"a", 1⟩, ⟨"b", 2⟩] := by
  norm_num [aggregateBins]

example : rebinHistogram [⟨"a", 2/5⟩, ⟨"b", 2/5⟩] 1 0 =
    some [⟨"a–b", 1, 0, 1⟩] := by
  norm_num [rebinHistogram, rebinGo, rebinStep, bucketEnd, jsRoundDiv, jsRoundQ, sumValues]
  decide

/- ### Helper lemmas: sums of bin values -/

lemma sumValues_foldl (l : List HistogramBin) (s : ℚ) :
    l.foldl (fun acc item => acc + item.value) s = s + sumValues l := by
  induction l generalizing s with
  | nil => simp [sumValues]
  | cons a l ih =>
    simp only [sumValues, List.foldl_cons] at ih ⊢
    rw [ih (s + a.value), ih (0 + a.value)]
    ring

lemma sumValues_nil : sumValues [] = 0 := rfl

lemma sumValues_cons (a : HistogramBin) (l : List HistogramBin) :
    sumValues (a :: l) = a.value + sumValues l := by
  show List.foldl (fun acc item => acc + item.value) 0 (a :: l) = _
  rw [List.foldl_cons, sumValues_foldl]
  ring

lemma sumValues_append (l1 l2 : List HistogramBin) :
    sumValues (l1 ++ l2) = sumValues l1 + sumValues l2 := by
  induction l1 with
  | nil => simp [sumValues_nil]
  | cons a l ih => simp [sumValues_cons, ih]; ring

lemma sumValues_eq_map_sum (l : List HistogramBin) :
    sumValues l = (l.map (fun b => b.value)).sum := by
  induction l with
  | nil => simp [sumValues_nil]
  | cons a l ih => rw [sumValues_cons, List.map_cons, List.sum_cons, ih]

lemma sumValuesAgg_foldl (l : List AggregatedBin) (s : ℚ) :
    l.foldl (fun acc item => acc + item.value) s = s + sumValuesAgg l := by
  induction l generalizing s with
  | nil => simp [sumValuesAgg]
  | cons a l ih =>
    simp only [sumValuesAgg, List.foldl_cons] at ih ⊢
    rw [ih (s + a.value), ih (0 + a.value)]
    ring

lemma sumValuesAgg_eq_map_sum (l : List AggregatedBin) :
    sumValuesAgg l = (l.map (fun b => b.value)).sum := by
  induction l with
  | nil => simp [sumValuesAgg]
  | cons a l ih =>
    simp only [sumValuesAgg, List.foldl_cons] at ih ⊢
    rw [sumValuesAgg_foldl, List.map_cons, List.sum_cons, ← ih, sumValuesAgg_foldl]
    ring

lemma jsRoundQ_intCast (z : ℤ) : jsRoundQ ((z : ℤ) : ℚ) = ((z : ℤ) : ℚ) := by
  unfold jsRoundQ
  rw [add_comm, Int.floor_add_int]
  norm_num

lemma sumValues_int (l : List HistogramBin)
    (h : ∀ b ∈ l, ∃ z : ℤ, b.value = (z : ℚ)) :
    ∃ z : ℤ, sumValues l = (z : ℚ) := by
  induction l with
  | nil => exact ⟨0, by simp [sumValues_nil]⟩
  | cons a l ih =>
    obtain ⟨za, hza⟩ := h a (by simp)
    obtain ⟨zl, hzl⟩ := ih (fun b hb => h b (by simp [hb]))
    refine ⟨za + zl, ?_⟩
    rw [sumValues_cons, hza, hzl]
    push_cast
    ring

/- ### Helper lemmas: rounded bucket boundaries of rebinHistogram -/

lemma rebinB_zero (len target : ℕ) (ht : 0 < target) : rebinB len target 0 = 0 := by
  show (2 * (0 * len) + target) / (2 * target) = 0
  simp only [Nat.zero_mul, Nat.mul_zero, Nat.zero_add]
  exact Nat.div_eq_of_lt (by omega)

lemma rebinB_last (len target : ℕ) (ht : 0 < target) : rebinB len target target = len := by
  show (2 * (target * len) + target) / (2 * target) = len
  have h1 : 2 * (target * len) + target = target * (2 * len + 1) := by ring
  have h2 : 2 * target = target * 2 := by ring
  rw [h1, h2, Nat.mul_div_mul_left _ _ ht]
  omega

lemma rebinB_mono (len target : ℕ) {b c : ℕ} (h : b ≤ c) :
    rebinB len target b ≤ rebinB len target c := by
  apply Nat.div_le_div_right
  have := Nat.mul_le_mul_right len h
  omega

lemma rebinB_strict (len target b : ℕ) (ht : 0 < target) (hlen : target ≤ len)
    (_hb : b < target) :
    rebinB len target b < rebinB len target (b + 1) := by
  have key : 2 * (b * len) + target + 2 * target ≤ 2 * ((b + 1) * len) + target := by
    have : (b + 1) * len = b * len + len := by ring
    omega
  have h2 : (2 * (b * len) + target) / (2 * target) + 1 ≤
      (2 * ((b + 1) * len) + target) / (2 * target) := by
    rw [← Nat.add_div_right _ (show 0 < 2 * target by omega)]
    exact Nat.div_le_div_right key
  show (2 * (b * len) + target) / (2 * target) < (2 * ((b + 1) * len) + target) / (2 * target)
  omega

lemma rebinB_le_len (len target b : ℕ) (ht : 0 < target) (hbt : b ≤ target) :
    rebinB len target b ≤ len :=
  le_trans (rebinB_mono len target hbt) (le_of_eq (rebinB_last len target ht))

lemma bucketEnd_eq (len target b : ℕ) (ht : 0 < target) (hb : b < target) :
    bucketEnd len target b = rebinB len target (b + 1) := by
  unfold bucketEnd
  by_cases h : b = target - 1
  · rw [if_pos h, h]
    have hx : target - 1 + 1 = target := by omega
    rw [hx, rebinB_last len target ht]
  · rw [if_neg h]
    rfl

/- ### The rebinHistogram loop computes the boundary-determined groups -/

lemma rebinSlice_ne_nil (bins : List HistogramBin) (target b : ℕ)
    (ht : 0 < target) (hlen : target ≤ bins.length) (hb : b < target) :
    rebinSlice bins target b ≠ [] := by
  have h1 : rebinB bins.length target b < rebinB bins.length target (b + 1) :=
    rebinB_strict bins.length target b ht hlen hb
  have h2 : rebinB bins.length target (b + 1) ≤ bins.length :=
    rebinB_le_len bins.length target (b + 1) ht (by omega)
  have hlen2 : (rebinSlice bins target b).length =
      min (rebinB bins.length target (b + 1) - rebinB bins.length target b)
        (bins.length - rebinB bins.length target b) := by
    simp [rebinSlice, List.length_take, List.length_drop]
  intro hc
  rw [hc] at hlen2
  simp only [List.length_nil] at hlen2
  omega

lemma rebinStep_eq (bins : List HistogramBin) (offset target b : ℕ)
    (ht : 0 < target) (hlen : target ≤ bins.length) (hb : b < target) :
    rebinStep bins offset target b (rebinB bins.length target b) =
      some (rebinRef bins offset target b, rebinB bins.length target (b + 1)) := by
  have hstrict : rebinB bins.length target b < rebinB bins.length target (b + 1) :=
    rebinB_strict bins.length target b ht hlen hb
  have hne : ((bins.drop (rebinB bins.length target b)).take
      (rebinB bins.length target (b + 1) - rebinB bins.length target b)) ≠ [] :=
    rebinSlice_ne_nil bins target b ht hlen hb
  simp only [rebinStep, bucketEnd_eq bins.length target b ht hb,
    if_neg (by omega : ¬ rebinB bins.length target (b + 1) ≤ rebinB bins.length target b)]
  rw [List.head?_eq_head hne, List.getLast?_eq_getLast _ hne]
  simp only [rebinRef, rebinLabel, rebinSlice]
  rw [List.head?_eq_head hne, List.getLast?_eq_getLast _ hne]

lemma rebinGo_eq (bins : List HistogramBin) (offset target : ℕ)
    (ht : 0 < target) (hlen : target ≤ bins.length) :
    ∀ fuel b, b + fuel = target →
      rebinGo bins offset target fuel b (rebinB bins.length target b) =
        some ((List.range' b fuel).map (rebinRef bins offset target)) := by
  intro fuel
  induction fuel with
  | zero =>
    intro b hb
    simp [rebinGo]
  | succ n ih =>
    intro b hb
    have hb' : b < target := by omega
    simp only [rebinGo]
    rw [rebinStep_eq bins offset target b ht hlen hb']
    show (rebinGo bins offset target n (b + 1) (rebinB bins.length target (b + 1))).map
        (rebinRef bins offset target b :: ·) = _
    rw [ih (b + 1) (by omega)]
    simp [List.range'_succ]

lemma rebinHistogram_eq (bins : List HistogramBin) (binsCount offset : ℕ)
    (hc : 1 ≤ binsCount) (hne : bins ≠ []) :
    rebinHistogram bins binsCount offset =
      some ((List.range' 0 (min binsCount bins.length)).map
        (rebinRef bins offset (min binsCount bins.length))) := by
  have hlen : 1 ≤ bins.length := List.length_pos.mpr hne
  have htarget : min binsCount (max bins.length 1) = min binsCount bins.length := by
    omega
  have h0 : 0 < min binsCount bins.length := by omega
  have hle : min binsCount bins.length ≤ bins.length := by omega
  unfold rebinHistogram
  rw [if_neg (show ¬ bins.length = 0 by omega), htarget]
  have hmain := rebinGo_eq bins offset (min binsCount bins.length) h0 hle
    (min binsCount bins.length) 0 (by omega)
  rw [rebinB_zero _ _ h0] at hmain
  exact hmain

/- ### Generic lemmas about monotone bucket boundaries -/

lemma boundary_chain (f : ℕ → ℕ) {lo hi : ℕ}
    (hs : ∀ x, lo ≤ x → x < hi → f x < f (x + 1)) :
    ∀ {b c : ℕ}, lo ≤ b → b ≤ c → c ≤ hi → f b ≤ f c := by
  intro b c hlob hbc
  induction c, hbc using Nat.le_induction with
  | base => intro _; exact le_refl _
  | succ m hm ih =>
    intro hchi
    have h1 : f b ≤ f m := ih (by omega)
    have h2 : f m < f (m + 1) := hs m (by omega) (by omega)
    omega

lemma countP_boundaries (f : ℕ → ℕ) (i : ℕ) :
    ∀ (k lo : ℕ), (∀ b, lo ≤ b → b < lo + k → f b < f (b + 1)) →
      f lo ≤ i → i < f (lo + k) →
      (List.range' lo k).countP
        (fun b => decide (f b ≤ i) && decide (i < f (b + 1))) = 1 := by
  intro k
  induction k with
  | zero =>
    intro lo _ h1 h2
    rw [Nat.add_zero] at h2
    omega
  | succ n ih =>
    intro lo hs h1 h2
    rw [List.range'_succ, List.countP_cons]
    by_cases hcase : i < f (lo + 1)
    · have hpred : (decide (f lo ≤ i) && decide (i < f (lo + 1))) = true := by
        simp [h1, hcase]
      have hzero : (List.range' (lo + 1) n).countP
          (fun b => decide (f b ≤ i) && decide (i < f (b + 1))) = 0 := by
        apply List.countP_eq_zero.mpr
        intro b hb
        rw [List.mem_range'_1] at hb
        have hmono : f (lo + 1) ≤ f b :=
          @boundary_chain f (lo + 1) (lo + 1 + n)
            (fun x hx1 hx2 => hs x (by omega) (by omega)) (lo + 1) b
            (le_refl (lo + 1)) hb.1 (by omega)
        simp only [Bool.and_eq_true, decide_eq_true_eq, not_and]
        intro hle
        omega
      rw [hpred, hzero]
      simp
    · have hpred : (decide (f lo ≤ i) && decide (i < f (lo + 1))) = false := by
        simp [hcase]
      have hrec := ih (lo + 1) (fun b hb1 hb2 => hs b (by omega) (by omega))
        (by omega) (by rw [show lo + 1 + n = lo + (n + 1) by omega]; exact h2)
      rw [hpred, hrec]
      simp

lemma sum_slices (bins : List HistogramBin) (f : ℕ → ℕ) :
    ∀ (k lo : ℕ), (∀ b, lo ≤ b → b < lo + k → f b ≤ f (b + 1)) →
      ((List.range' lo k).map
          (fun b => sumValues ((bins.drop (f b)).take (f (b + 1) - f b)))).sum =
        sumValues (bins.drop (f lo)) - sumValues (bins.drop (f (lo + k))) := by
  intro k
  induction k with
  | zero => intro lo _; simp
  | succ n ih =>
    intro lo hmono
    rw [List.range'_succ, List.map_cons, List.sum_cons]
    have hle : f lo ≤ f (lo + 1) := hmono lo (le_refl _) (by omega)
    have hsplit : sumValues (bins.drop (f lo)) =
        sumValues ((bins.drop (f lo)).take (f (lo + 1) - f lo)) +
          sumValues (bins.drop (f (lo + 1))) := by
      conv_lhs => rw [← List.take_append_drop (f (lo + 1) - f lo) (bins.drop (f lo))]
      rw [sumValues_append]
      congr 2
      rw [List.drop_drop]
      congr 1
      omega
    rw [ih (lo + 1) (fun b hb1 hb2 => hmono b (by omega) (by omega))]
    rw [show lo + 1 + n = lo + (n + 1) by omega]
    rw [hsplit]
    ring

/-- C10: `rebinHistogram` is total at its public interface: for every bins
array and every `binsCount ≥ 1` it produces a result (never an undefined
`.label` read — the embedding returns `none` exactly when JS would read a
property of `undefined`): the empty input yields the empty output, and the
output has exactly `min binsCount bins.length` bins. -/
theorem rebinHistogram_total (bins : List HistogramBin) (binsCount offset : ℕ)
    (hc : 1 ≤ binsCount) :
    ∃ out, rebinHistogram bins binsCount offset = some out ∧
      out.length = min binsCount bins.length ∧ (bins = [] → out = []) := by
  by_cases hne : bins = []
  · subst hne
    exact ⟨[], by simp [rebinHistogram], by simp, fun _ => rfl⟩
  · refine ⟨_, rebinHistogram_eq bins binsCount offset hc hne, ?_, fun h => absurd h hne⟩
    simp [List.length_map, List.length_range']

/-- C10 witness: on a three-bin histogram with `binsCount = 2`, `offset = 7`,
the call succeeds with exactly `min 2 3 = 2` output bins. -/
theorem rebinHistogram_total_witness :
    (rebinHistogram [⟨"a", 1⟩, ⟨"b", 2⟩, ⟨"c", 3⟩] 2 7).isSome = true ∧
      Option.map List.length (rebinHistogram [⟨"a", 1⟩, ⟨"b", 2⟩, ⟨"c", 3⟩] 2 7) =
        some 2 := by
  obtain ⟨out, h1, h2, h3⟩ :=
    rebinHistogram_total [⟨"a", 1⟩, ⟨"b", 2⟩, ⟨"c", 3⟩] 2 7 (by norm_num)
  rw [h1]
  refine ⟨rfl, ?_⟩
  simp [h2]

/-- C2: for every non-empty input and positive bin count, the output
`[startIndex, endIndex]` ranges, translated back by `offset`, partition
`[0, bins.length - 1]`: every input index is covered by exactly one output
range (no gaps, no overlaps), and every range stays inside the translated
input span with `startIndex ≤ endIndex`. -/
theorem rebinHistogram_partition (bins : List HistogramBin) (binsCount offset : ℕ)
    (hne : bins ≠ []) (hc : 1 ≤ binsCount) (out : List AggregatedBin)
    (hout : rebinHistogram bins binsCount offset = some out) :
    (∀ i, i < bins.length →
      out.countP (fun a => decide (a.startIndex ≤ offset + i) &&
        decide (offset + i ≤ a.endIndex)) = 1) ∧
    (∀ a ∈ out, offset ≤ a.startIndex ∧ a.startIndex ≤ a.endIndex ∧
      a.endIndex + 1 ≤ offset + bins.length) := by
  rw [rebinHistogram_eq bins binsCount offset hc hne] at hout
  have hout' : out = (List.range' 0 (min binsCount bins.length)).map
      (rebinRef bins offset (min binsCount bins.length)) := (Option.some_inj.mp hout).symm
  subst hout'
  have hlen : 1 ≤ bins.length := List.length_pos.mpr hne
  have h0 : 0 < min binsCount bins.length := by omega
  have hle : min binsCount bins.length ≤ bins.length := by omega
  have hstrict : ∀ b, 0 ≤ b → b < 0 + min binsCount bins.length →
      rebinB bins.length (min binsCount bins.length) b <
        rebinB bins.length (min binsCount bins.length) (b + 1) :=
    fun b _ hb => rebinB_strict bins.length (min binsCount bins.length) b h0 hle (by omega)
  constructor
  · intro i hi
    rw [List.countP_map]
    rw [List.countP_congr (q := fun b =>
      decide (rebinB bins.length (min binsCount bins.length) b ≤ i) &&
        decide (i < rebinB bins.length (min binsCount bins.length) (b + 1)))]
    · exact countP_boundaries (rebinB bins.length (min binsCount bins.length)) i
        (min binsCount bins.length) 0 hstrict
        (by rw [rebinB_zero _ _ h0]; omega)
        (by rw [show (0 : ℕ) + min binsCount bins.length = min binsCount bins.length
              from by omega, rebinB_last _ _ h0]; omega)
    · intro b hb
      rw [List.mem_range'_1] at hb
      have hs1 := hstrict b (by omega) (by omega)
      simp only [Function.comp, rebinRef, Bool.and_eq_true, decide_eq_true_eq]
      constructor
      · rintro ⟨hA, hB⟩
        exact ⟨by omega, by omega⟩
      · rintro ⟨hC, hD⟩
        exact ⟨by omega, by omega⟩
  · intro a ha
    rw [List.mem_map] at ha
    obtain ⟨b, hb, rfl⟩ := ha
    rw [List.mem_range'_1] at hb
    have hs1 := hstrict b (by omega) (by omega)
    have hs2 : rebinB bins.length (min binsCount bins.length) (b + 1) ≤ bins.length :=
      rebinB_le_len bins.length (min binsCount bins.length) (b + 1) h0 (by omega)
    dsimp only [rebinRef]
    omega

/-- C2 witness: for the three-bin histogram, `binsCount = 2`, `offset = 5`,
the output is `[("a–b", 3, 5, 6), ("c", 3, 7, 7)]` and translated index 1 is
covered by exactly one output range. -/
theorem rebinHistogram_partition_witness :
    rebinHistogram [⟨"a", 1⟩, ⟨"b", 2⟩, ⟨"c", 3⟩] 2 5 =
      some [⟨"a–b", 3, 5, 6⟩, ⟨"c", 3, 7, 7⟩] ∧
    ([⟨"a–b", 3, 5, 6⟩, ⟨"c", 3, 7, 7⟩] : List AggregatedBin).countP
      (fun a => decide (a.startIndex ≤ 5 + 1) && decide (5 + 1 ≤ a.endIndex)) = 1 := by
  have h : rebinHistogram [⟨"a", 1⟩, ⟨"b", 2⟩, ⟨"c", 3⟩] 2 5 =
      some [⟨"a–b", 3, 5, 6⟩, ⟨"c", 3, 7, 7⟩] := by
    norm_num [rebinHistogram, rebinGo, rebinStep, bucketEnd, jsRoundDiv, jsRoundQ, sumValues]
    decide
  exact ⟨h, (rebinHistogram_partition [⟨"a", 1⟩, ⟨"b", 2⟩, ⟨"c", 3⟩] 2 5
    (by simp) (by norm_num) _ h).1 1 (by norm_num)⟩

/- ### aggregateBins: boundary facts and loop characterisation -/

/-- The label `aggregateBins` gives a group (line 24 of `part_003`). -/
def aggLabel (slice : List HistogramBin) : String :=
  match slice.head?, slice.getLast? with
  | some first, some last =>
    if slice.length = 1 then first.label else first.label ++ "–" ++ last.label
  | _, _ => ""

/-- The group of input bins assigned to bucket `b` by `aggregateBins`. -/
def aggSlice (bins : List HistogramBin) (target b : ℕ) : List HistogramBin :=
  (bins.drop (aggB bins.length target b)).take
    (aggB bins.length target (b + 1) - aggB bins.length target b)

/-- The output bin of bucket `b` of `aggregateBins`. -/
def aggRef (bins : List HistogramBin) (target b : ℕ) : HistogramBin :=
  { label := aggLabel (aggSlice bins target b)
    value := jsRoundQ (sumValues (aggSlice bins target b)) }

lemma aggB_zero (len target : ℕ) : aggB len target 0 = 0 := by
  show 0 * len / target = 0
  simp

lemma aggB_last (len target : ℕ) (ht : 0 < target) : aggB len target target = len := by
  show target * len / target = len
  exact Nat.mul_div_cancel_left len ht

lemma aggB_mono (len target : ℕ) {b c : ℕ} (h : b ≤ c) :
    aggB len target b ≤ aggB len target c := by
  apply Nat.div_le_div_right
  exact Nat.mul_le_mul_right len h

lemma aggB_strict (len target b : ℕ) (ht : 0 < target) (hlen : target ≤ len)
    (_hb : b < target) :
    aggB len target b < aggB len target (b + 1) := by
  have key : b * len + target ≤ (b + 1) * len := by
    have : (b + 1) * len = b * len + len := by ring
    omega
  have h2 : b * len / target + 1 ≤ (b + 1) * len / target := by
    rw [← Nat.add_div_right _ ht]
    exact Nat.div_le_div_right key
  show b * len / target < (b + 1) * len / target
  omega

lemma aggB_le_len (len target b : ℕ) (ht : 0 < target) (hbt : b ≤ target) :
    aggB len target b ≤ len :=
  le_trans (aggB_mono len target hbt) (le_of_eq (aggB_last len target ht))

lemma aggSlice_ne_nil (bins : List HistogramBin) (target b : ℕ)
    (ht : 0 < target) (hlen : target ≤ bins.length) (hb : b < target) :
    aggSlice bins target b ≠ [] := by
  have h1 : aggB bins.length target b < aggB bins.length target (b + 1) :=
    aggB_strict bins.length target b ht hlen hb
  have h2 : aggB bins.length target (b + 1) ≤ bins.length :=
    aggB_le_len bins.length target (b + 1) ht (by omega)
  have hlen2 : (aggSlice bins target b).length =
      min (aggB bins.length target (b + 1) - aggB bins.length target b)
        (bins.length - aggB bins.length target b) := by
    simp [aggSlice, List.length_take, List.length_drop]
  intro hc
  rw [hc] at hlen2
  simp only [List.length_nil] at hlen2
  omega

lemma aggStep_eq (bins : List HistogramBin) (target b : ℕ)
    (ht : 0 < target) (hlen : target ≤ bins.length) (hb : b < target) :
    aggStep bins target b = some (aggRef bins target b) := by
  have hstrict : aggB bins.length target b < aggB bins.length target (b + 1) :=
    aggB_strict bins.length target b ht hlen hb
  have hlelen : aggB bins.length target (b + 1) ≤ bins.length :=
    aggB_le_len bins.length target (b + 1) ht (by omega)
  have hne : ((bins.drop (aggB bins.length target b)).take
      (aggB bins.length target (b + 1) - aggB bins.length target b)) ≠ [] :=
    aggSlice_ne_nil bins target b ht hlen hb
  have hmin : min bins.length ((b + 1) * bins.length / target) =
      aggB bins.length target (b + 1) := min_eq_right hlelen
  have hmax : max (b * bins.length / target + 1)
      (aggB bins.length target (b + 1)) = aggB bins.length target (b + 1) :=
    max_eq_right (by exact hstrict)
  simp only [aggStep, hmin, hmax]
  rw [show b * bins.length / target = aggB bins.length target b from rfl]
  rw [List.head?_eq_head hne, List.getLast?_eq_getLast _ hne]
  simp only [aggRef, aggLabel, aggSlice]
  rw [List.head?_eq_head hne, List.getLast?_eq_getLast _ hne]

lemma aggGo_eq (bins : List HistogramBin) (target : ℕ)
    (ht : 0 < target) (hlen : target ≤ bins.length) :
    ∀ fuel b, b + fuel = target →
      aggGo bins target fuel b =
        some ((List.range' b fuel).map (aggRef bins target)) := by
  intro fuel
  induction fuel with
  | zero =>
    intro b hb
    simp [aggGo]
  | succ n ih =>
    intro b hb
    have hb' : b < target := by omega
    simp only [aggGo]
    rw [aggStep_eq bins target b ht hlen hb']
    show (aggGo bins target n (b + 1)).map (aggRef bins target b :: ·) = _
    rw [ih (b + 1) (by omega)]
    simp [List.range'_succ]

/- ### Losslessness of the re-aggregated sums (integer-valued bins) -/

lemma rebinHistogram_sum_int (bins : List HistogramBin) (binsCount offset : ℕ)
    (out : List AggregatedBin) (hc : 1 ≤ binsCount)
    (hint : ∀ b ∈ bins, ∃ z : ℤ, b.value = (z : ℚ))
    (hout : rebinHistogram bins binsCount offset = some out) :
    sumValuesAgg out = sumValues bins := by
  by_cases hne : bins = []
  · subst hne
    simp only [rebinHistogram, List.length_nil, if_pos rfl] at hout
    obtain rfl := (Option.some_inj.mp hout).symm
    rfl
  · rw [rebinHistogram_eq bins binsCount offset hc hne] at hout
    obtain rfl := (Option.some_inj.mp hout).symm
    have hlen : 1 ≤ bins.length := List.length_pos.mpr hne
    have h0 : 0 < min binsCount bins.length := by omega
    have hle : min binsCount bins.length ≤ bins.length := by omega
    rw [sumValuesAgg_eq_map_sum, List.map_map]
    have hcong : (List.range' 0 (min binsCount bins.length)).map
        ((fun b => b.value) ∘ rebinRef bins offset (min binsCount bins.length)) =
        (List.range' 0 (min binsCount bins.length)).map
          (fun b => sumValues
            ((bins.drop (rebinB bins.length (min binsCount bins.length) b)).take
              (rebinB bins.length (min binsCount bins.length) (b + 1) -
                rebinB bins.length (min binsCount bins.length) b))) := by
      apply List.map_congr_left
      intro b hb
      simp only [Function.comp, rebinRef]
      obtain ⟨z, hz⟩ := sumValues_int (rebinSlice bins (min binsCount bins.length) b)
        (fun x hx => hint x (List.mem_of_mem_drop (List.mem_of_mem_take hx)))
      rw [show (bins.drop (rebinB bins.length (min binsCount bins.length) b)).take
          (rebinB bins.length (min binsCount bins.length) (b + 1) -
            rebinB bins.length (min binsCount bins.length) b) =
          rebinSlice bins (min binsCount bins.length) b from rfl]
      rw [hz, jsRoundQ_intCast]
    rw [hcong]
    rw [sum_slices bins (rebinB bins.length (min binsCount bins.length))
      (min binsCount bins.length) 0
      (fun b hb1 hb2 =>
        le_of_lt (rebinB_strict bins.length (min binsCount bins.length) b h0 hle (by omega)))]
    rw [rebinB_zero _ _ h0,
      show (0 : ℕ) + min binsCount bins.length = min binsCount bins.length from by omega,
      rebinB_last _ _ h0]
    simp [List.drop_length, sumValues_nil]

lemma aggregateBins_sum_int (bins : List HistogramBin) (targetSize : ℕ)
    (out : List HistogramBin) (ht : 1 ≤ targetSize)
    (hint : ∀ b ∈ bins, ∃ z : ℤ, b.value = (z : ℚ))
    (hout : aggregateBins bins targetSize = some out) :
    sumValues out = sumValues bins := by
  unfold aggregateBins at hout
  by_cases h0 : bins.length = 0
  · rw [if_pos h0] at hout
    obtain rfl := (Option.some_inj.mp hout).symm
    rw [List.length_eq_zero.mp h0]
  · rw [if_neg h0] at hout
    by_cases h1 : bins.length ≤ targetSize
    · rw [if_pos h1] at hout
      obtain rfl := (Option.some_inj.mp hout).symm
      rfl
    · rw [if_neg h1] at hout
      have ht0 : 0 < targetSize := by omega
      have hle : targetSize ≤ bins.length := by omega
      rw [aggGo_eq bins targetSize ht0 hle targetSize 0 (by omega)] at hout
      obtain rfl := (Option.some_inj.mp hout).symm
      rw [sumValues_eq_map_sum, List.map_map]
      have hcong : (List.range' 0 targetSize).map
          ((fun b => b.value) ∘ aggRef bins targetSize) =
          (List.range' 0 targetSize).map
            (fun b => sumValues
              ((bins.drop (aggB bins.length targetSize b)).take
                (aggB bins.length targetSize (b + 1) - aggB bins.length targetSize b))) := by
        apply List.map_congr_left
        intro b hb
        simp only [Function.comp, aggRef]
        obtain ⟨z, hz⟩ := sumValues_int (aggSlice bins targetSize b)
          (fun x hx => hint x (List.mem_of_mem_drop (List.mem_of_mem_take hx)))
        rw [show (bins.drop (aggB bins.length targetSize b)).take
            (aggB bins.length targetSize (b + 1) - aggB bins.length targetSize b) =
            aggSlice bins targetSize b from rfl]
        rw [hz, jsRoundQ_intCast]
      rw [hcong]
      rw [sum_slices bins (aggB bins.length targetSize) targetSize 0
        (fun b hb1 hb2 =>
          le_of_lt (aggB_strict bins.length targetSize b ht0 hle (by omega)))]
      rw [aggB_zero, show (0 : ℕ) + targetSize = targetSize from by omega,
        aggB_last _ _ ht0]
      simp [List.drop_length, sumValues_nil]

/-- C1 counterexample: with fractional bin values the rebin is NOT lossless —
`Math.round` on each output bin breaks the sum.  Two bins of value `2/5`
rebinned into one bin give `round(4/5) = 1 ≠ 4/5`. -/
theorem rebinHistogram_not_lossless :
    rebinHistogram [⟨"a", 2/5⟩, ⟨"b", 2/5⟩] 1 0 = some [⟨"a–b", 1, 0, 1⟩] ∧
      sumValuesAgg [⟨"a–b", 1, 0, 1⟩] = 1 ∧
      sumValues [⟨"a", 2/5⟩, ⟨"b", 2/5⟩] = 4/5 ∧ (1 : ℚ) ≠ 4/5 := by
  refine ⟨?_, ?_, ?_, by norm_num⟩
  · norm_num [rebinHistogram, rebinGo, rebinStep, bucketEnd, jsRoundDiv, jsRoundQ, sumValues]
    decide
  · norm_num [sumValuesAgg]
  · norm_num [sumValues]

/-- C1 (amended): for every rebin call with positive bin count on
integer-valued input bins (histogram counts), the sum of the output values
equals the sum of the input values — for both `rebinHistogram` and the
earlier `aggregateBins`.  (With a zero bin count the output is empty, and
with fractional values per-bin `Math.round` breaks the sum.) -/
theorem rebin_lossless_integer_bins :
    (∀ (bins : List HistogramBin) (binsCount offset : ℕ) (out : List AggregatedBin),
      1 ≤ binsCount → (∀ b ∈ bins, ∃ z : ℤ, b.value = (z : ℚ)) →
      rebinHistogram bins binsCount offset = some out →
      sumValuesAgg out = sumValues bins) ∧
    (∀ (bins : List HistogramBin) (targetSize : ℕ) (out : List HistogramBin),
      1 ≤ targetSize → (∀ b ∈ bins, ∃ z : ℤ, b.value = (z : ℚ)) →
      aggregateBins bins targetSize = some out →
      sumValues out = sumValues bins) :=
  ⟨fun bins c off out hc hint hout => rebinHistogram_sum_int bins c off out hc hint hout,
   fun bins t out ht hint hout => aggregateBins_sum_int bins t out ht hint hout⟩

/-- C1 witness: the three integer-valued bins 1, 2, 3 rebinned into two bins
sum to the same total 6. -/
theorem rebin_lossless_integer_bins_witness :
    sumValuesAgg [⟨"a–b", 3, 0, 1⟩, ⟨"c", 3, 2, 2⟩] =
      sumValues [⟨"a", 1⟩, ⟨"b", 2⟩, ⟨"c", 3⟩] :=
  rebin_lossless_integer_bins.1 [⟨"a", 1⟩, ⟨"b", 2⟩, ⟨"c", 3⟩] 2 0
    [⟨"a–b", 3, 0, 1⟩, ⟨"c", 3, 2, 2⟩] (by norm_num)
    (by
      intro b hb
      fin_cases hb
      · exact ⟨1, by norm_num⟩
      · exact ⟨2, by norm_num⟩
      · exact ⟨3, by norm_num⟩)
    (by
      norm_num [rebinHistogram, rebinGo, rebinStep, bucketEnd, jsRoundDiv, jsRoundQ, sumValues]
      decide)

/- ### Theorems: zoom range selection (C8) -/

/-- C8 counterexample: a request with `start > end` is NOT reordered to the
pair covering the same two clamped endpoints: `clampRange 10 (5, 2)` yields
`(5, 5)` — the end is raised to the clamped start — not `(2, 5)`. -/
theorem clampRange_no_swap :
    clampRange 10 (some (5, 2)) = (5, 5) ∧ clampRange 10 (some (5, 2)) ≠ (2, 5) := by
  constructor <;> decide

/-- C8 (amended): for a non-empty histogram, `clampRange` clamps both ends
into `[0, len-1]` and orders them with `start ≤ end`, but a request with
`start > end` yields the degenerate pair `(start, start)` (the end is raised
to the clamped start, not swapped); with no active view it defaults to the
full range `[0, len-1]`, and on an empty histogram it returns `(0, 0)`. -/
theorem clampRange_clamps_and_orders :
    (∀ (length : ℕ) (s e : ℤ), 1 ≤ length →
      0 ≤ (clampRange length (some (s, e))).1 ∧
      (clampRange length (some (s, e))).1 ≤ (clampRange length (some (s, e))).2 ∧
      (clampRange length (some (s, e))).2 ≤ (length : ℤ) - 1 ∧
      (clampRange length (some (s, e))).1 = max 0 (min s ((length : ℤ) - 1)) ∧
      (clampRange length (some (s, e))).2 =
        max (max 0 (min s ((length : ℤ) - 1))) (min e ((length : ℤ) - 1))) ∧
    (∀ length : ℕ, 1 ≤ length →
      clampRange length none = (0, (length : ℤ) - 1)) ∧
    (∀ r : Option (ℤ × ℤ), clampRange 0 r = (0, 0)) := by
  refine ⟨fun length s e hlen => ?_, fun length hlen => ?_, fun r => ?_⟩
  · have h0 : ¬ length = 0 := by omega
    simp only [clampRange, if_neg h0]
    refine ⟨?_, ?_, ?_, ?_, ?_⟩ <;> first | trivial | omega
  · simp only [clampRange]
    have : max ((length : ℤ) - 1) 0 = (length : ℤ) - 1 := by omega
    rw [this]
  · rcases r with _ | ⟨s, e⟩
    · simp [clampRange]
    · simp [clampRange]

/-- C8 witness: at `length = 10`, requested `(5, 2)`, the clamped pair is
ordered (`start ≤ end`). -/
theorem clampRange_clamps_and_orders_witness :
    (clampRange 10 (some (5, 2))).1 ≤ (clampRange 10 (some (5, 2))).2 :=
  (clampRange_clamps_and_orders.1 10 5 2 (by norm_num)).2.1

/- ### Spec-modelled Time-Lens engine (C3, C4) -/

/-- Structured error kind of the spec's error taxonomy (§7): an InputError
with a descriptive reason. -/
inductive TimeLensError where
  | inputError (msg : String)
deriving DecidableEq, Repr

/-- Mean of a list of rationals (0 on the empty list). -/
def listMean (l : List ℚ) : ℚ := if l.length = 0 then 0 else l.sum / l.length

/-- Values centred by their mean. -/
def centered (l : List ℚ) : List ℚ := l.map (fun x => x - listMean l)

/-- Pearson correlation `Σ(x-x̄)(y-ȳ) / (√Σ(x-x̄)² · √Σ(y-ȳ)²)`; real-valued
because of the square roots, 0 when a variance vanishes (division by zero),
matching the spec's "not applicable, never silently coerced" reading only up
to the value — the claims below concern validation and series shape, not the
numeric value. -/
noncomputable def pearsonR (xs ys : List ℚ) : ℝ :=
  ((((centered xs).zip (centered ys)).map (fun p => p.1 * p.2)).sum : ℚ) /
    (Real.sqrt (((((centered xs).map (fun x => x * x)).sum : ℚ) : ℝ)) *
      Real.sqrt (((((centered ys).map (fun y => y * y)).sum : ℚ) : ℝ)))

/-- Stable ascending insertion by sort key: an element is inserted after all
existing elements with an equal or smaller key, so ties preserve the original
relative order, as §4.5 requires. -/
def insertByKey (x : ℚ × (ℕ × (ℚ × ℚ))) :
    List (ℚ × (ℕ × (ℚ × ℚ))) → List (ℚ × (ℕ × (ℚ × ℚ)))
  | [] => [x]
  | y :: ys => if y.1 ≤ x.1 then y :: insertByKey x ys else x :: y :: ys

/-- Stable insertion sort by key. -/
def stableSortByKey (l : List (ℚ × (ℕ × (ℚ × ℚ)))) :
    List (ℚ × (ℕ × (ℚ × ℚ))) :=
  l.foldr insertByKey []

/-- Modelled from the spec: the ordering step of §4.5 — `orderField = null`
keeps dataset order (rows tagged with their original position), otherwise
rows are stably sorted ascending by the order column's values. -/
def timeLensOrdered (rows : List (ℚ × ℚ)) (orderCol : Option (List ℚ)) :
    List (ℕ × (ℚ × ℚ)) :=
  match orderCol with
  | none => rows.enum
  | some keys => (stableSortByKey (keys.zip rows.enum)).map Prod.snd

/-- Modelled from the spec: the rolling-correlation series of §4.5 — for each
position `i ≥ window-1` of the ordered sample, one point keyed by the row's
key with the Pearson correlation over the trailing `window` rows ending at
`i`; earlier positions are omitted ("omit incomplete window" policy). -/
noncomputable def timeLensPoints (ordered : List (ℕ × (ℚ × ℚ))) (w : ℕ) :
    List (ℕ × ℝ) :=
  (List.range ordered.length).filterMap (fun i =>
    if w ≤ i + 1 then
      some ((ordered.getD i (0, (0, 0))).1,
        pearsonR (((ordered.drop (i + 1 - w)).take w).map (fun r => r.2.1))
          (((ordered.drop (i + 1 - w)).take w).map (fun r => r.2.2)))
    else none)

/-- Modelled from the spec: `timeLens(feature, target, window, orderField)`
of §4.5 — the Time-Lens engine itself lives in the backend, which is not part
of the repository snapshot (`src/backend/` holds only its README).  `rows`
are the ordered (feature, target) pairs of the working sample.  A window
`≤ 0` or larger than the sample raises InputError with no output produced
(§4.5, §7, §8). -/
noncomputable def timeLensModelled (rows : List (ℚ × ℚ)) (window : ℤ)
    (orderCol : Option (List ℚ)) : Except TimeLensError (List (ℕ × ℝ)) :=
  if window ≤ 0 ∨ (rows.length : ℤ) < window then
    Except.error (TimeLensError.inputError "window out of range")
  else
    Except.ok (timeLensPoints (timeLensOrdered rows orderCol) window.toNat)

/-- C3: every timeLens request whose window is `≤ 0` or exceeds the sample
size is rejected as an input error, with no output produced (never silently
clamped). -/
theorem timeLens_rejects_invalid_window (rows : List (ℚ × ℚ)) (window : ℤ)
    (orderCol : Option (List ℚ))
    (h : window ≤ 0 ∨ (rows.length : ℤ) < window) :
    timeLensModelled rows window orderCol =
      Except.error (TimeLensError.inputError "window out of range") := by
  unfold timeLensModelled
  rw [if_pos h]

/-- C3 witness: window 0 over a one-row sample is rejected. -/
theorem timeLens_rejects_invalid_window_witness :
    timeLensModelled [((0 : ℚ), (0 : ℚ))] 0 none =
      Except.error (TimeLensError.inputError "window out of range") :=
  timeLens_rejects_invalid_window [((0 : ℚ), (0 : ℚ))] 0 none (Or.inl (by norm_num))

lemma range_split_at (w n : ℕ) (hw : 1 ≤ w) (hn : w ≤ n) :
    List.range n = List.range' 0 (w - 1) ++ List.range' (w - 1) (n - (w - 1)) := by
  rw [List.range_eq_range']
  have h := List.range'_append 0 (w - 1) (n - (w - 1)) 1
  simp only [Nat.one_mul, Nat.zero_add] at h
  rw [show n - (w - 1) + (w - 1) = n from by omega] at h
  exact h.symm

lemma filterMap_threshold {β : Type} (w : ℕ) (F : ℕ → β) :
    ∀ (k s : ℕ), w - 1 ≤ s →
      (List.range' s k).filterMap (fun i => if w ≤ i + 1 then some (F i) else none) =
        (List.range' s k).map F := by
  intro k
  induction k with
  | zero => intro s _; simp
  | succ m ih =>
    intro s hs
    rw [List.range'_succ, List.filterMap_cons, List.map_cons,
      if_pos (show w ≤ s + 1 by omega), ih (s + 1) (by omega)]

lemma filterMap_range_threshold {β : Type} (w n : ℕ) (hw : 1 ≤ w) (hn : w ≤ n)
    (F : ℕ → β) :
    (List.range n).filterMap (fun i => if w ≤ i + 1 then some (F i) else none) =
      (List.range' (w - 1) (n - (w - 1))).map F := by
  rw [range_split_at w n hw hn, List.filterMap_append]
  rw [List.filterMap_eq_nil_iff.mpr (fun i hi => by
    rw [List.mem_range'_1] at hi
    exact if_neg (by omega))]
  rw [filterMap_threshold w F (n - (w - 1)) (w - 1) (le_refl _), List.nil_append]

lemma enum_getD_fst (l : List (ℚ × ℚ)) (i : ℕ) (h : i < l.length) :
    (l.enum.getD i (0, (0, 0))).1 = i := by
  simp [List.getD, List.getElem?_enum, List.getElem?_eq_getElem h]

lemma timeLensPoints_enum (rows : List (ℚ × ℚ)) (w : ℕ)
    (hw : 1 ≤ w) (hn : w ≤ rows.length) :
    (timeLensPoints rows.enum w).length = rows.length - w + 1 ∧
    (timeLensPoints rows.enum w).map Prod.fst =
      List.range' (w - 1) (rows.length - w + 1) := by
  unfold timeLensPoints
  rw [List.enum_length]
  rw [filterMap_range_threshold w rows.length hw hn]
  constructor
  · rw [List.length_map, List.length_range']
    omega
  · rw [List.map_map]
    rw [List.map_congr_left (g := fun i => i) (fun i hi => by
      rw [List.mem_range'_1] at hi
      exact enum_getD_fst rows i (by omega))]
    rw [List.map_id']
    rw [show rows.length - (w - 1) = rows.length - w + 1 from by omega]

/-- C4: a timeLens request with window `w` over `n` ordered rows
(`1 ≤ w ≤ n`, null orderField) returns a rolling-correlation series with
exactly `n - w + 1` points, one per position `i ≥ w - 1`, with keys in
original row order (`[w-1, …, n-1]`). -/
theorem timeLens_point_count (rows : List (ℚ × ℚ)) (w : ℕ)
    (hw : 1 ≤ w) (hn : w ≤ rows.length) :
    ∃ pts, timeLensModelled rows (w : ℤ) none = Except.ok pts ∧
      pts.length = rows.length - w + 1 ∧
      pts.map Prod.fst = List.range' (w - 1) (rows.length - w + 1) := by
  have hval : ¬ ((w : ℤ) ≤ 0 ∨ (rows.length : ℤ) < (w : ℤ)) := by omega
  have hpts := timeLensPoints_enum rows w hw hn
  refine ⟨timeLensPoints (timeLensOrdered rows none) ((w : ℤ)).toNat, ?_, ?_, ?_⟩
  · unfold timeLensModelled
    rw [if_neg hval]
  · rw [show ((w : ℤ)).toNat = w by simp]
    exact hpts.1
  · rw [show ((w : ℤ)).toNat = w by simp]
    exact hpts.2

/-- C4 witness: `timeLens` with window 7 over 60 ordered rows (null
orderField) returns exactly `60 - 7 + 1 = 54` points. -/
theorem timeLens_point_count_witness :
    Except.map List.length
      (timeLensModelled (List.replicate 60 ((0 : ℚ), (0 : ℚ))) 7 none) =
      Except.ok 54 := by
  obtain ⟨pts, h1, h2, h3⟩ := timeLens_point_count
    (List.replicate 60 ((0 : ℚ), (0 : ℚ))) 7 (by norm_num) (by simp)
  simp only [show (((7 : ℕ) : ℤ)) = (7 : ℤ) from by norm_num] at h1
  rw [h1]
  simp only [List.length_replicate] at h2
  simp [Except.map, h2]
